import Mathlib

/-!
Shallow embedding of the `simd` header (`simd.hpp`): the lane-wise vector
type `simd::pack<T,N>` together with its construction, element access,
operator-dispatch, shuffle, blend and map/reduce machinery, and proofs of
the lane-wise laws the library is meant to satisfy.

The underlying register of a `pack<T,N>` is a GNU vector (`aligned r`) of
exactly N lanes of T, lane 0 first; here it is a `List T` of length N.
Machine-level operations on the register (the GNU vector extension
operators and builtins) are modelled by their documented per-lane
semantics, with the scalar per-lane functions kept abstract where the
header itself is a template.
-/

namespace simd

/-- `simd::pack<T,N>`: wraps the underlying GNU vector register
`aligned r` holding exactly N lanes of element type T, lane 0 first. -/
structure pack (T : Type) (N : Nat) where
  r : List T
  hr : r.length = N

namespace pack

variable {T U V S A B C R : Type} {N M : Nat}

/-- `operator[](unsigned int) const`: read lane `i` of the register (`r[i]`). -/
def get (s : pack T N) (i : Fin N) : T :=
  s.r.get (Fin.cast s.hr.symm i)

/-- The mutable `operator[](unsigned int)` used as a write `v[i] = c`:
lane `i` of the register is replaced by `c`, the rest of the register
stays as it was. -/
def set (s : pack T N) (i : Fin N) (c : T) : pack T N :=
  ⟨s.r.set i c, by simp [s.hr]⟩

/-- `pack(const pack<V,N> &x)`: `__builtin_convertvector(x.r, aligned)`,
an element-wise numeric conversion applied lane by lane. -/
def convert (f : T → U) (s : pack T N) : pack U N :=
  ⟨s.r.map f, by simp [s.hr]⟩

/-- The zero register `aligned{}` (value-initialized: every lane zero). -/
def zreg (T : Type) [Zero T] (N : Nat) : pack T N :=
  ⟨List.replicate N 0, by simp⟩

/-- A GNU-vector binary operation with a scalar left operand:
the scalar is broadcast and the operation applied lane-wise. -/
def svOp (f : T → T → T) (x : T) (v : pack T N) : pack T N :=
  ⟨v.r.map (f x), by simp [v.hr]⟩

/-- The broadcast constructor `pack(const V &x) : r(T(x) - aligned{})`:
the converted scalar minus the zero register, which broadcasts `T(x)`
into every lane. The caller passes the already-converted value `T(x)`. -/
def bcast [Zero T] [Sub T] (t : T) : pack T N :=
  svOp (fun a b => a - b) t (zreg T N)

/-- The per-lane list constructor `pack(const V &...x) : r{T(x)...}`:
GNU-vector brace initialization of the register.  An initializer list
longer than the vector is ill-formed (rejected at compile time, modelled
as `none`); a shorter list initializes the leading lanes in order and
value-initializes (zeroes) the missing trailing lanes. -/
def ofArgs [Zero T] (f : V → T) (args : List V) (N : Nat) : Option (pack T N) :=
  if h : args.length ≤ N then
    some ⟨args.map f ++ List.replicate (N - args.length) 0, by
      simp [Nat.add_sub_cancel' h]⟩
  else none

/-- A lane-wise GNU vector binary operator on two registers of width N. -/
def regBin (f : T → T → T) (a b : pack T N) : pack T N :=
  ⟨List.zipWith f a.r b.r, by simp [a.hr, b.hr]⟩

/-- The free binary operator `operator⊕(x, y)` of the header with both
operands packs: `R(x).r ⊕ R(y).r`.  Both operands are first converted to
the promotion result type (conversions `cT`, `cV` into the promoted
element type U) and the scalar per-lane semantics `f` of `⊕` is then
applied lane-wise. -/
def binOpVV (f : U → U → U) (cT : T → U) (cV : V → U)
    (x : pack T N) (y : pack V N) : pack U N :=
  regBin f (convert cT x) (convert cV y)

/-- The free binary operator with a pack left operand and a scalar right
operand: `R(y)` resolves to the broadcast constructor. -/
def binOpVS [Zero U] [Sub U] (f : U → U → U) (cT : T → U) (cV : V → U)
    (x : pack T N) (y : V) : pack U N :=
  regBin f (convert cT x) (bcast (cV y))

/-- The free binary operator with a scalar left operand and a pack right
operand: `R(x)` resolves to the broadcast constructor. -/
def binOpSV [Zero U] [Sub U] (f : U → U → U) (cT : T → U) (cV : V → U)
    (x : T) (y : pack V N) : pack U N :=
  regBin f (bcast (cT x)) (convert cV y)

/-- One lane of a GNU vector comparison result: all bits set (the signed
value -1) where the comparison holds, all bits zero where it does not. -/
def maskLane (b : Bool) : Int :=
  if b then -1 else 0

/-- A lane-wise GNU vector comparison of two registers of width N,
producing a mask register. -/
def regCmp (f : T → T → Bool) (a b : pack T N) : pack Int N :=
  ⟨List.zipWith (fun x y => maskLane (f x y)) a.r b.r, by simp [a.hr, b.hr]⟩

/-- A free comparison operator of the header with both operands packs:
`R(x).r ⊗ R(y).r` — both operands converted to the promotion result type
and compared lane-wise, yielding the mask pack. -/
def cmpVV (f : U → U → Bool) (cT : T → U) (cV : V → U)
    (x : pack T N) (y : pack V N) : pack Int N :=
  regCmp f (convert cT x) (convert cV y)

/-- A free comparison operator with a pack left operand and scalar right
operand: the scalar goes through the broadcast constructor. -/
def cmpVS [Zero U] [Sub U] (f : U → U → Bool) (cT : T → U) (cV : V → U)
    (x : pack T N) (y : V) : pack Int N :=
  regCmp f (convert cT x) (bcast (cV y))

/-- `(k.emod n).toNat < n` for a positive modulus: a wrapped index is in
range for a register of width `n`. -/
theorem emod_toNat_lt (k : Int) (n : Nat) (h : 0 < n) : (k.emod n).toNat < n := by
  have hn : (0 : Int) < (n : Int) := Int.natCast_pos.mpr h
  have h1 : k.emod n < (n : Int) := Int.emod_lt_of_pos k hn
  have h0 : 0 ≤ k.emod n := Int.emod_nonneg k (by omega)
  omega

/-- `__builtin_shuffle(a, b, mask)`: every mask lane is considered modulo
`2*(N+1)` (registers have a positive power-of-two lane count, so the
machine masking of the index coincides with the mathematical modulus);
an index below `N+1` selects from `a`, the rest select from `b`. -/
def shuffle2 (a b : pack T (N + 1)) (mask : pack Int M) : pack T M :=
  ⟨mask.r.map (fun k =>
      let m := (k.emod (2 * (N + 1))).toNat
      if h : m < N + 1 then
        a.r.get ⟨m, by rw [a.hr]; exact h⟩
      else
        b.r.get ⟨m - (N + 1), by
          rw [b.hr]
          have hm : m < 2 * (N + 1) := emod_toNat_lt k (2 * (N + 1)) (by omega)
          omega⟩),
    by simp [mask.hr]⟩

/-- The shuffle operator `operator[](const pack<V,M> &s) const`:
`__builtin_shuffle(r, r, s.r)` — both shuffle sources are the receiver's
own register, the argument pack supplies the index lanes. -/
def shuffleIdx (v : pack T (N + 1)) (idx : pack Int M) : pack T M :=
  shuffle2 v v idx

/-- One register of the GNU vector conditional `t ? y : n`: lane-wise,
a nonzero test lane selects the `y` lane, a zero test lane the `n` lane. -/
def regSelect [Zero S] [DecidableEq S] : List S → List C → List C → List C
  | t :: ts, y :: ys, n :: ns => (if t ≠ 0 then y else n) :: regSelect ts ys ns
  | _, _, _ => []

theorem regSelect_length [Zero S] [DecidableEq S] :
    ∀ (t : List S) (y n : List C),
      (regSelect t y n).length = Nat.min t.length (Nat.min y.length n.length)
  | [], _, _ => by cases ‹List C› <;> simp [regSelect]
  | _ :: _, [], _ => by simp [regSelect]
  | _ :: _, _ :: _, [] => by simp [regSelect]
  | t :: ts, y :: ys, n :: ns => by
    simp [regSelect, regSelect_length ts ys ns, Nat.succ_min_succ]

/-- The free function `blend(test, yes, no)`:
`test.r ? R(yes).r : R(no).r`, where `R` is the promotion of the three
operand types (`cA`, `cB` convert the candidate lanes into the promoted
element type C). -/
def blend [Zero S] [DecidableEq S] (test : pack S N)
    (yes : pack A N) (no : pack B N) (cA : A → C) (cB : B → C) : pack C N :=
  ⟨regSelect test.r (convert cA yes).r (convert cB no).r, by
    rw [regSelect_length]
    simp [test.hr, (convert cA yes).hr, (convert cB no).hr]⟩

/-- `reduce(function, s, initial)`: `R out = initial; for (i = 0; i < N; i++)
out = function(out, s[i]); return out;` — a left fold over the register,
lane 0 first. -/
def reduce (f : R → T → R) (s : pack T N) (initial : R) : R :=
  s.r.foldl f initial

/-- Lane 0 of a nonempty pack (the `s[0]` seed of the fold functions). -/
def lane0 (s : pack T (N + 1)) : T :=
  s.get ⟨0, Nat.succ_pos N⟩

/-- `any(s)`: `bool r = s[0]; for (i = 1; i < N; i++) r = r || s[i];` —
C++ truthiness of a lane is "nonzero". -/
def any [Zero T] [DecidableEq T] (s : pack T (N + 1)) : Bool :=
  s.r.tail.foldl (fun r x => r || decide (x ≠ 0)) (decide (lane0 s ≠ 0))

/-- `all(s)`: `bool r = s[0]; for (i = 1; i < N; i++) r = r && s[i];`. -/
def all [Zero T] [DecidableEq T] (s : pack T (N + 1)) : Bool :=
  s.r.tail.foldl (fun r x => r && decide (x ≠ 0)) (decide (lane0 s ≠ 0))

/-- `sum(s)`: `T r = s[0]; for (i = 1; i < N; i++) r = r + s[i];`. -/
def sum [Add T] (s : pack T (N + 1)) : T :=
  s.r.tail.foldl (fun r x => r + x) (lane0 s)

/-- `prod(s)`: `T r = s[0]; for (i = 1; i < N; i++) r = r * s[i];`. -/
def prod [Mul T] (s : pack T (N + 1)) : T :=
  s.r.tail.foldl (fun r x => r * x) (lane0 s)

/-- `max(s)`: `T r = s[0]; for (i = 1; i < N; i++) r = r > s[i] ? r : s[i];`. -/
def max [LinearOrder T] (s : pack T (N + 1)) : T :=
  s.r.tail.foldl (fun r x => if x < r then r else x) (lane0 s)

/-- `min(s)`: `T r = s[0]; for (i = 1; i < N; i++) r = r < s[i] ? r : s[i];`. -/
def min [LinearOrder T] (s : pack T (N + 1)) : T :=
  s.r.tail.foldl (fun r x => if r < x then r else x) (lane0 s)

end pack

/-- The scalar arithmetic element types a pack can be instantiated at
(an LP64 platform: `long` is 64 bits wide). -/
inductive CType where
  | i8 | i16 | i32 | i64 | u8 | u16 | u32 | u64 | f32 | f64
  deriving DecidableEq, Fintype

namespace CType

/-- Bit width of the element type. -/
def width : CType → Nat
  | i8 => 8 | i16 => 16 | i32 => 32 | i64 => 64
  | u8 => 8 | u16 => 16 | u32 => 32 | u64 => 64
  | f32 => 32 | f64 => 64

/-- Signedness (floating-point types count as signed). -/
def isSigned : CType → Bool
  | u8 | u16 | u32 | u64 => false
  | _ => true

/-- Integer (as opposed to floating-point) element types. -/
def isIntegerType : CType → Bool
  | f32 | f64 => false
  | _ => true

/-- C++ integer promotion: integer types narrower than `int` promote
to `int` before the usual arithmetic conversions. -/
def intPromote : CType → CType
  | i8 | i16 | u8 | u16 => i32
  | t => t

/-- `std::common_type` on two arithmetic operand types — the usual
arithmetic conversions invoked by the header's promotion trait. -/
def commonType (a b : CType) : CType :=
  if a = f64 ∨ b = f64 then f64
  else if a = f32 ∨ b = f32 then f32
  else
    let a := intPromote a
    let b := intPromote b
    if a = b then a
    else if a.isSigned = b.isSigned then (if a.width < b.width then b else a)
    else
      let s := if a.isSigned then a else b
      let u := if a.isSigned then b else a
      if s.width ≤ u.width then u else s

/-- `pack<T,N>::int_type`'s element `decltype((r < r)[0])`: a GNU vector
comparison yields a vector of the signed integer type with the same bit
width as the compared element type. -/
def int_type : CType → CType
  | i8 | u8 => i8
  | i16 | u16 => i16
  | i32 | u32 | f32 => i32
  | i64 | u64 | f64 => i64

/-- The element type of `blend`'s result
`pack<std::common_type_t<T,V,W>::type, T::size>`: `common_type_t` folds
from the left, so the mask's element type takes part in the promotion. -/
def blendElemType (tm tv tw : CType) : CType :=
  commonType (commonType tm tv) tw

end CType

/-- The example program's float vector `z = {1,2,3,4,5,6,7,8}` (every
value and operation in the concrete scenarios is exact, so the binary32
lanes are modelled by their integer values). -/
def z8 : pack Int 8 :=
  ⟨[1, 2, 3, 4, 5, 6, 7, 8], rfl⟩

/-- The example program's index vector `indexes = {0,3,2,5,1,4,6,7}`. -/
def indexes8 : pack Int 8 :=
  ⟨[0, 3, 2, 5, 1, 4, 6, 7], rfl⟩

/-- The example program's `x` with every lane 10 (broadcast). -/
def x10 : pack Int 8 :=
  pack.bcast 10

/-- The mask `x > 9`: lane-wise greater-than against the broadcast
scalar 9 (`R(x).r > R(y).r`). -/
def x10gt9 : pack Int 8 :=
  pack.cmpVS (fun a b => decide (b < a)) id id x10 (9 : Int)

namespace pack

variable {T U V S A B C R : Type} {N M : Nat}

theorem get_mk (l : List T) (h : l.length = N) (i : Fin N) :
    (⟨l, h⟩ : pack T N).get i = l.get (Fin.cast h.symm i) :=
  rfl

theorem get_convert (f : T → U) (s : pack T N) (i : Fin N) :
    (convert f s).get i = f (s.get i) := by
  simp [convert, get]

theorem get_bcast [SubtractionMonoid T] (t : T) (i : Fin N) :
    (bcast t : pack T N).get i = t := by
  simp [bcast, svOp, zreg, get]

theorem get_regBin (f : T → T → T) (a b : pack T N) (i : Fin N) :
    (regBin f a b).get i = f (a.get i) (b.get i) := by
  simp [regBin, get]

theorem get_regCmp (f : T → T → Bool) (a b : pack T N) (i : Fin N) :
    (regCmp f a b).get i = maskLane (f (a.get i) (b.get i)) := by
  simp [regCmp, get]

theorem ofFn_get (s : pack T N) : List.ofFn (fun i => s.get i) = s.r := by
  obtain ⟨r, hr⟩ := s
  subst hr
  exact List.ofFn_get r

/-- A nonempty register is its lane 0 followed by lanes 1..N in order. -/
theorem r_eq_cons (s : pack T (N + 1)) :
    s.r = lane0 s :: List.ofFn (fun i : Fin N => s.get i.succ) := by
  obtain ⟨r, hr⟩ := s
  match r, hr with
  | x :: xs, hr =>
    have hx : xs.length = N := by simpa using hr
    subst hx
    simp only [lane0, get_mk, List.cons.injEq]
    constructor
    · rfl
    · have := List.ofFn_get xs
      refine Eq.symm (Eq.trans ?_ this)
      rfl

theorem get_set_eq (s : pack T N) (i : Fin N) (c : T) :
    (s.set i c).get i = c := by
  obtain ⟨r, hr⟩ := s
  subst hr
  simp [set, get, List.getElem_set]

theorem get_set_ne (s : pack T N) (i : Fin N) (c : T) (j : Fin N) (h : j ≠ i) :
    (s.set i c).get j = s.get j := by
  obtain ⟨r, hr⟩ := s
  subst hr
  have hji : (j : Nat) ≠ (i : Nat) := fun hc => h (Fin.ext hc)
  simp [set, get, List.getElem_set, hji.symm]

/-- Folding a two-source shuffle index: reducing the mask lane modulo
`2*n` and then picking from the matching half of two equal sources is
the same as reducing it modulo `n`. -/
theorem emod_double_fold (k : Int) (n : Nat) (hn : 0 < n) :
    (if (k.emod (2 * n)).toNat < n then (k.emod (2 * n)).toNat
     else (k.emod (2 * n)).toNat - n) = (k.emod n).toNat := by
  have hdvd : (n : Int) ∣ (2 * (n : Int)) := ⟨2, by ring⟩
  have hfold : (k.emod (2 * (n : Int))).emod n = k.emod n :=
    Int.emod_emod_of_dvd k hdvd
  have h0 : 0 ≤ k.emod (2 * (n : Int)) := Int.emod_nonneg k (by omega)
  have h2 : k.emod (2 * (n : Int)) < 2 * (n : Int) := Int.emod_lt_of_pos k (by omega)
  have h0n : 0 ≤ k.emod (n : Int) := Int.emod_nonneg k (by omega)
  have h2n : k.emod (n : Int) < (n : Int) := Int.emod_lt_of_pos k (by omega)
  rcases lt_or_le (k.emod (2 * (n : Int))) (n : Int) with h | h
  · have heq : (k.emod (2 * (n : Int))).emod n = k.emod (2 * (n : Int)) :=
      Int.emod_eq_of_lt h0 h
    rw [heq] at hfold
    split_ifs with hc
    · omega
    · omega
  · have hsub : (k.emod (2 * (n : Int)) - n).emod n
        = (k.emod (2 * (n : Int))).emod n := by
      show (k.emod (2 * (n : Int)) - n) % (n : Int) = k.emod (2 * (n : Int)) % (n : Int)
      rw [Int.sub_emod, Int.emod_self, sub_zero, Int.emod_emod_of_dvd _ dvd_rfl]
    have heq : (k.emod (2 * (n : Int)) - n).emod n
        = k.emod (2 * (n : Int)) - n :=
      Int.emod_eq_of_lt (by omega) (by omega)
    rw [heq, hfold] at hsub
    split_ifs with hc
    · omega
    · omega

theorem get_regSelect [Zero S] [DecidableEq S] :
    ∀ (t : List S) (y n : List C) (i : Nat) (h1 : i < t.length)
      (h2 : i < y.length) (h3 : i < n.length)
      (h4 : i < (regSelect t y n).length),
      (regSelect t y n).get ⟨i, h4⟩
        = if t.get ⟨i, h1⟩ ≠ 0 then y.get ⟨i, h2⟩ else n.get ⟨i, h3⟩
  | tc :: ts, yc :: ys, nc :: ns, 0, _, _, _, _ => rfl
  | tc :: ts, yc :: ys, nc :: ns, i + 1, h1, h2, h3, h4 => by
    have := get_regSelect ts ys ns i (by simpa using h1) (by simpa using h2)
      (by simpa using h3) (by simpa [regSelect] using h4)
    simpa [regSelect] using this

end pack

end simd

namespace simd

/-- Reading lane j of a pack whose register is a lane-wise map of
another pack's register. -/
theorem get_mapped {V T : Type} {M : Nat} (f : V → T) (s : pack V M)
    (h : (s.r.map f).length = M) (j : Fin M) :
    (⟨s.r.map f, h⟩ : pack T M).get j = f (s.get j) := by
  simp [pack.get, pack.get_mk]

/-- C1: for every source vector `v` of width N and integer index vector
`idx` of width M, the shuffle `v[idx]` returns a vector of width M whose
lane j is `v`'s lane `idx.get(j) mod N` — indices wrap modulo the source
width and are never out of range; in particular the example's
`z[indexes]` with z = (1,...,8) and indexes = (0,3,2,5,1,4,6,7) is
(1,4,3,6,2,5,7,8). -/
theorem C1_shuffle_by_index :
    (∀ (T : Type) (N M : Nat) (v : pack T (N + 1)) (idx : pack Int M) (j : Fin M),
        (pack.shuffleIdx v idx).get j
          = v.get ⟨((idx.get j).emod (N + 1)).toNat,
              pack.emod_toNat_lt (idx.get j) (N + 1) (Nat.succ_pos N)⟩)
      ∧ (pack.shuffleIdx z8 indexes8).r = [1, 4, 3, 6, 2, 5, 7, 8] := by
  constructor
  · intro T N M v idx j
    have hfold := pack.emod_double_fold (idx.get j) (N + 1) (Nat.succ_pos N)
    push_cast at hfold
    unfold pack.shuffleIdx pack.shuffle2
    rw [get_mapped]
    dsimp only
    split_ifs with hc
    · rw [if_pos hc] at hfold
      exact congrArg v.r.get (Fin.ext hfold)
    · rw [if_neg hc] at hfold
      exact congrArg v.r.get (Fin.ext hfold)
  · decide

/-- C2: every dispatched binary operator first converts both operands to
the type-promotion result type R — a scalar operand goes through the
broadcast constructor — and then applies the scalar operator lane-wise:
for every i, lane i of the result is the scalar operator applied to the
operands' (converted) lanes i.  Here `f` is the per-lane scalar semantics
of the dispatched operator (any of +, -, *, /, %, &&, ||, &, |, ^, <<,
>>), and `cT`, `cV` the numeric conversions into R's element type. -/
theorem C2_operator_lanewise_law (T V U : Type) [SubtractionMonoid U]
    (f : U → U → U) (cT : T → U) (cV : V → U) :
    (∀ (N : Nat) (a : pack T N) (b : pack V N) (i : Fin N),
        (pack.binOpVV f cT cV a b).get i = f (cT (a.get i)) (cV (b.get i)))
      ∧ (∀ (N : Nat) (a : pack T N) (y : V) (i : Fin N),
        (pack.binOpVS f cT cV a y).get i = f (cT (a.get i)) (cV y))
      ∧ (∀ (N : Nat) (x : T) (b : pack V N) (i : Fin N),
        (pack.binOpSV f cT cV x b).get i = f (cT x) (cV (b.get i))) := by
  refine ⟨?_, ?_, ?_⟩ <;> intros <;>
    simp [pack.binOpVV, pack.binOpVS, pack.binOpSV, pack.get_regBin,
      pack.get_convert, pack.get_bcast]

/-- C3: a lane-wise comparison returns a mask vector whose element type
(`int_type` of the promoted pack) is an integer type of the same bit
width as the promoted element type, and each lane is all-bits-set (the
signed value -1, i.e. 2^w - 1 as a w-bit pattern) exactly when the
scalar comparison holds on that lane and all-bits-zero otherwise —
never a boolean 0/1 encoding. -/
theorem C3_comparison_mask_law (T V U : Type) [SubtractionMonoid U]
    (f : U → U → Bool) (cT : T → U) (cV : V → U) :
    (∀ (N : Nat) (a : pack T N) (b : pack V N) (i : Fin N),
        (pack.cmpVV f cT cV a b).get i
          = pack.maskLane (f (cT (a.get i)) (cV (b.get i))))
      ∧ (∀ (N : Nat) (a : pack T N) (y : V) (i : Fin N),
        (pack.cmpVS f cT cV a y).get i
          = pack.maskLane (f (cT (a.get i)) (cV y)))
      ∧ (∀ t : CType, (t.int_type).isIntegerType = true ∧ (t.int_type).width = t.width)
      ∧ (∀ w : Nat, (pack.maskLane true).emod (2 ^ (w + 1)) = 2 ^ (w + 1) - 1
            ∧ pack.maskLane false = 0 ∧ pack.maskLane true ≠ 1) := by
  refine ⟨?_, ?_, by decide, ?_⟩
  · intros
    simp [pack.cmpVV, pack.get_regCmp, pack.get_convert]
  · intros
    simp [pack.cmpVS, pack.get_regCmp, pack.get_convert, pack.get_bcast]
  · intro w
    have hpos : (0 : Int) < 2 ^ w := by positivity
    have hm : (2 : Int) ≤ 2 ^ (w + 1) := by
      rw [pow_succ]
      omega
    refine ⟨?_, rfl, by decide⟩
    show (-1 : Int).emod (2 ^ (w + 1)) = 2 ^ (w + 1) - 1
    have hrw : (-1 : Int) = (2 ^ (w + 1) - 1) + 2 ^ (w + 1) * (-1) := by ring
    rw [hrw]
    show ((2 ^ (w + 1) - 1) + 2 ^ (w + 1) * (-1)) % ((2 : Int) ^ (w + 1)) = 2 ^ (w + 1) - 1
    rw [Int.add_mul_emod_self_left]
    exact Int.emod_eq_of_lt (by omega) (by omega)

end simd

namespace simd

/-- Lane j of `blend`: the vector conditional selects the (converted)
yes-lane where the test lane is nonzero and the no-lane where it is
zero. -/
theorem get_blend {S A B C : Type} {N : Nat} [Zero S] [DecidableEq S]
    (test : pack S N) (yes : pack A N) (no : pack B N)
    (cA : A → C) (cB : B → C) (i : Fin N) :
    (pack.blend test yes no cA cB).get i
      = if test.get i ≠ 0 then cA (yes.get i) else cB (no.get i) := by
  have h1 : (i : Nat) < test.r.length := by rw [test.hr]; exact i.isLt
  have h2 : (i : Nat) < (pack.convert cA yes).r.length := by
    rw [(pack.convert cA yes).hr]; exact i.isLt
  have h3 : (i : Nat) < (pack.convert cB no).r.length := by
    rw [(pack.convert cB no).hr]; exact i.isLt
  have h4 : (i : Nat) < (pack.regSelect test.r (pack.convert cA yes).r
      (pack.convert cB no).r).length := by
    rw [pack.regSelect_length]
    simp [test.hr, (pack.convert cA yes).hr, (pack.convert cB no).hr]
  have hsel := pack.get_regSelect test.r (pack.convert cA yes).r (pack.convert cB no).r
    i h1 h2 h3 h4
  show (pack.regSelect test.r (pack.convert cA yes).r (pack.convert cB no).r).get
      ⟨i, h4⟩ = _
  rw [hsel]
  have hy : (pack.convert cA yes).r.get ⟨i, h2⟩ = cA (yes.get i) := by
    have := pack.get_convert cA yes i
    simpa [pack.get] using this
  have hn : (pack.convert cB no).r.get ⟨i, h3⟩ = cB (no.get i) := by
    have := pack.get_convert cB no i
    simpa [pack.get] using this
  have ht : test.r.get ⟨i, h1⟩ = test.get i := rfl
  rw [hy, hn, ht]

/-- C4 counterexample: the element type of `blend`'s result is
`std::common_type_t<T,V,W>::type` where T is the MASK pack type, so the
mask's element type takes part in the promotion: blending two `int32`
vectors under a mask produced by comparing `int64` vectors yields an
`int64` result, not the `int32` promotion of the two candidates alone. -/
theorem C4_blend_element_type_counterexample :
    CType.blendElemType (CType.int_type CType.i64) CType.i32 CType.i32
      ≠ CType.commonType CType.i32 CType.i32 := by
  decide

/-- C4 amended: for every mask `m` (lanes all-bits-set or all-bits-zero)
and candidate vectors `yes`, `no`, lane i of `blend(m, yes, no)` is
`yes.get(i)` where the mask lane is all-bits-set (more generally where
it is nonzero, which is what the underlying vector conditional tests)
and `no.get(i)` otherwise; the result element type is the three-way
promotion of the MASK's, `yes`'s and `no`'s element types (which is
grouping-independent), not of the two candidates alone. -/
theorem C4_blend_selection_law (S A B C : Type) [Zero S] [DecidableEq S]
    (cA : A → C) (cB : B → C) :
    (∀ (N : Nat) (test : pack S N) (yes : pack A N) (no : pack B N) (i : Fin N),
        (pack.blend test yes no cA cB).get i
          = if test.get i ≠ 0 then cA (yes.get i) else cB (no.get i))
      ∧ (∀ (N : Nat) (test : pack Int N) (yes : pack A N) (no : pack B N) (i : Fin N),
          (∀ j : Fin N, test.get j = pack.maskLane true ∨ test.get j = pack.maskLane false) →
          (pack.blend test yes no cA cB).get i
            = if test.get i = pack.maskLane true then cA (yes.get i) else cB (no.get i))
      ∧ (∀ tm tv tw : CType,
          CType.blendElemType tm tv tw = CType.commonType tm (CType.commonType tv tw)) := by
  refine ⟨fun N test yes no i => get_blend test yes no cA cB i, ?_, by decide⟩
  intro N test yes no i h
  rw [get_blend test yes no cA cB i]
  rcases h i with hi | hi <;> simp [hi, pack.maskLane]

/-- C4 witness: the mask-selection clause of the amended blend law
instantiated on the concrete mask `x > 9` with candidates z8 and
indexes8, at lane 0. -/
theorem C4_blend_selection_law_witness :
    (pack.blend x10gt9 z8 indexes8 id id).get ⟨0, Nat.succ_pos 7⟩
      = if x10gt9.get ⟨0, Nat.succ_pos 7⟩ = pack.maskLane true
        then id (z8.get ⟨0, Nat.succ_pos 7⟩) else id (indexes8.get ⟨0, Nat.succ_pos 7⟩) :=
  (C4_blend_selection_law Int Int Int Int id id).2.1 8 x10gt9 z8 indexes8
    ⟨0, Nat.succ_pos 7⟩ (by decide)

/-- C5: constructing a `pack<T,N>` from a single scalar c broadcasts:
every lane i of the result equals T(c), the scalar converted to the
element type (`conv` models the conversion `T(·)`). -/
theorem C5_broadcast_identity (T V : Type) [SubtractionMonoid T] (conv : V → T) :
    ∀ (N : Nat) (c : V) (i : Fin N), (pack.bcast (conv c) : pack T N).get i = conv c := by
  intro N c i
  exact pack.get_bcast _ i

/-- C6: `reduce(f, s, initial)` computes exactly the left fold
`acc = initial; acc = f(acc, s.get(0)); ...; acc = f(acc, s.get(N-1))`,
visiting lanes in strictly increasing index order.  `reduce` is a pure
function of its arguments, so repeated invocations on the same inputs
yield the identical result. -/
theorem C6_reduce_left_fold (T R : Type) (f : R → T → R) :
    ∀ (N : Nat) (s : pack T N) (initial : R),
      pack.reduce f s initial = (List.ofFn fun i => s.get i).foldl f initial := by
  intro N s initial
  rw [pack.ofFn_get]
  rfl

/-- C7: `any` is the fold of logical-or and `all` the fold of
logical-and over lanes 1..N-1, each seeded with lane 0's truthiness
(not a neutral identity), so on a width-1 vector both return exactly
lane 0's truthiness; and on the width-8 vector x with every lane 10,
`any (x > 9)` and `all (x > 9)` are both true. -/
theorem C7_any_all_lane0_seeded (T : Type) [Zero T] [DecidableEq T] :
    (∀ (N : Nat) (s : pack T (N + 1)),
        pack.any s = (List.ofFn fun i : Fin N => s.get i.succ).foldl
            (fun r x => r || decide (x ≠ 0)) (decide (pack.lane0 s ≠ 0))
          ∧ pack.all s = (List.ofFn fun i : Fin N => s.get i.succ).foldl
            (fun r x => r && decide (x ≠ 0)) (decide (pack.lane0 s ≠ 0)))
      ∧ (∀ s : pack T 1,
          pack.any s = decide (pack.lane0 s ≠ 0) ∧ pack.all s = decide (pack.lane0 s ≠ 0))
      ∧ pack.any x10gt9 = true ∧ pack.all x10gt9 = true := by
  have hgen : ∀ (N : Nat) (s : pack T (N + 1)),
      pack.any s = (List.ofFn fun i : Fin N => s.get i.succ).foldl
          (fun r x => r || decide (x ≠ 0)) (decide (pack.lane0 s ≠ 0))
        ∧ pack.all s = (List.ofFn fun i : Fin N => s.get i.succ).foldl
          (fun r x => r && decide (x ≠ 0)) (decide (pack.lane0 s ≠ 0)) := by
    intro N s
    constructor
    · simp only [pack.any]
      rw [pack.r_eq_cons s]
      simp
    · simp only [pack.all]
      rw [pack.r_eq_cons s]
      simp
  refine ⟨hgen, ?_, by decide, by decide⟩
  intro s
  have := hgen 0 s
  simpa using this

/-- C8: `sum`, `prod`, `max` and `min` are left folds seeded with
lane 0 over lanes 1..N-1 using +, *, lane-wise greater and lane-wise
less respectively; on z = (1,...,8): sum 36, prod 40320, max 8, min 1
(every value and operation is exact, so the float lanes are modelled by
their integer values). -/
theorem C8_fold_scenarios (T : Type) [Add T] [Mul T] [LinearOrder T] :
    (∀ (N : Nat) (s : pack T (N + 1)),
        pack.sum s = (List.ofFn fun i : Fin N => s.get i.succ).foldl
            (fun r x => r + x) (pack.lane0 s)
          ∧ pack.prod s = (List.ofFn fun i : Fin N => s.get i.succ).foldl
            (fun r x => r * x) (pack.lane0 s)
          ∧ pack.max s = (List.ofFn fun i : Fin N => s.get i.succ).foldl
            (fun r x => if x < r then r else x) (pack.lane0 s)
          ∧ pack.min s = (List.ofFn fun i : Fin N => s.get i.succ).foldl
            (fun r x => if r < x then r else x) (pack.lane0 s))
      ∧ pack.sum z8 = 36 ∧ pack.prod z8 = 40320 ∧ pack.max z8 = 8 ∧ pack.min z8 = 1 := by
  refine ⟨?_, by decide, by decide, by decide, by decide⟩
  intro N s
  refine ⟨?_, ?_, ?_, ?_⟩ <;>
    · simp only [pack.sum, pack.prod, pack.max, pack.min]
      rw [pack.r_eq_cons s]
      simp

/-- C9 counterexample: a per-lane initializer list SHORTER than the
width is not rejected: constructing a width-4 pack from the two
arguments (1, 2) succeeds, producing lanes (1, 2, 0, 0) with the
missing trailing lanes value-initialized to zero (GNU vector brace
initialization); only an initializer list LONGER than the width is
ill-formed. -/
theorem C9_arity_counterexample :
    (pack.ofArgs (fun x : Int => x) [1, 2] 4).map pack.r = some [1, 2, 0, 0]
      ∧ pack.ofArgs (fun x : Int => x) [1, 2] 4 ≠ none := by
  constructor
  · decide
  · intro h
    simp [pack.ofArgs] at h

/-- C9 amended: per-lane list construction with more than N arguments
is rejected at compile time; with at most N arguments it succeeds,
lane i receiving argument i's value converted to T for i below the
argument count — so the exactly-N round-trip holds — and the missing
trailing lanes value-initialized to zero. -/
theorem C9_per_lane_construction (T V : Type) [Zero T] (f : V → T)
    (N : Nat) (args : List V) :
    (N < args.length → pack.ofArgs f args N = none)
      ∧ (args.length ≤ N →
          ∃ p : pack T N, pack.ofArgs f args N = some p
            ∧ ∀ i : Fin N,
                p.get i = if h : (i : Nat) < args.length
                  then f (args.get ⟨i, h⟩) else 0) := by
  constructor
  · intro h
    simp [pack.ofArgs]
    omega
  · intro h
    refine ⟨⟨args.map f ++ List.replicate (N - args.length) 0,
        by simp [Nat.add_sub_cancel' h]⟩, by simp [pack.ofArgs, h], ?_⟩
    intro i
    simp only [pack.get, pack.get_mk, List.get_eq_getElem]
    split_ifs with hc
    · rw [List.getElem_append_left]
      · simp
      · simpa using hc
    · rw [List.getElem_append_right]
      · simp
      · simpa using hc

/-- C9 witness: the amended construction law instantiated on the
exact-count list (5, 6, 7) at width 3: lane 1 reads back 6. -/
theorem C9_per_lane_construction_witness :
    ∃ p : pack Int 3, pack.ofArgs (fun x : Int => x) [5, 6, 7] 3 = some p
      ∧ p.get ⟨1, by omega⟩ = 6 := by
  obtain ⟨p, hp, hget⟩ :=
    (C9_per_lane_construction Int Int (fun x => x) 3 [5, 6, 7]).2 (by decide)
  refine ⟨p, hp, ?_⟩
  have := hget ⟨1, by omega⟩
  simpa using this

/-- C10: the in-place lane write `v[i] = c` sets lane i to c and leaves
every other lane j of v unchanged. -/
theorem C10_lane_write_frame (T : Type) (N : Nat) (s : pack T N) (i : Fin N) (c : T) :
    (s.set i c).get i = c ∧ ∀ j : Fin N, j ≠ i → (s.set i c).get j = s.get j :=
  ⟨pack.get_set_eq s i c, fun j h => pack.get_set_ne s i c j h⟩

/-- C10 witness: the lane-write frame law instantiated on z8 at lane 1
with value 99, checking lane 1 and the untouched lane 2. -/
theorem C10_lane_write_frame_witness :
    (z8.set ⟨1, by omega⟩ 99).get ⟨1, by omega⟩ = 99
      ∧ (z8.set ⟨1, by omega⟩ 99).get ⟨2, by omega⟩ = z8.get ⟨2, by omega⟩ :=
  ⟨(C10_lane_write_frame Int 8 z8 ⟨1, by omega⟩ 99).1,
    (C10_lane_write_frame Int 8 z8 ⟨1, by omega⟩ 99).2 ⟨2, by omega⟩ (by decide)⟩

end simd
